import Mathlib

/-!
Shallow embedding of the WCH ISP flasher core (wchisp-android):
the frame codec (`protocol.rs`), the chip registry (`device.rs`) and the
flashing orchestration (`flashing.rs`).  Bytes are modelled as `Nat` with
explicit `% 256` / `% 2 ^ 32` truncation exactly where the source casts or
wraps; fallible operations return `Except`.  The external USB transport is a
parameter (send/receive results, response oracles), mirroring the transport
trait boundary of the source.
-/

namespace Wchisp

/-- The eleven ISP command kinds (`protocol.rs`, `CommandType`). -/
inductive CommandType where
  | Identify
  | IspEnd
  | IspKey
  | Erase
  | Program
  | Verify
  | ReadConfig
  | WriteConfig
  | DataErase
  | DataProgram
  | DataRead
  deriving DecidableEq, Repr

/-- Wire byte of each command kind (`CommandType` discriminant values). -/
def CommandType.toByte : CommandType → Nat
  | .Identify => 0xa1
  | .IspEnd => 0xa2
  | .IspKey => 0xa3
  | .Erase => 0xa4
  | .Program => 0xa5
  | .Verify => 0xa6
  | .ReadConfig => 0xa7
  | .WriteConfig => 0xa8
  | .DataErase => 0xa9
  | .DataProgram => 0xaa
  | .DataRead => 0xab

/-- The kind-byte match of `Response::from_raw` (`protocol.rs` lines 179-195). -/
def byteToCommandType (b : Nat) : Option CommandType :=
  if b = 0xa1 then some .Identify
  else if b = 0xa2 then some .IspEnd
  else if b = 0xa3 then some .IspKey
  else if b = 0xa4 then some .Erase
  else if b = 0xa5 then some .Program
  else if b = 0xa6 then some .Verify
  else if b = 0xa7 then some .ReadConfig
  else if b = 0xa8 then some .WriteConfig
  else if b = 0xa9 then some .DataErase
  else if b = 0xaa then some .DataProgram
  else if b = 0xab then some .DataRead
  else none

/-- ISP command (`protocol.rs`, `Command`): a kind plus payload bytes. -/
structure Command where
  cmd_type : CommandType
  payload : List Nat
  deriving DecidableEq, Repr

/-- ISP response (`protocol.rs`, `Response`): kind, status byte, payload. -/
structure Response where
  cmd_type : CommandType
  status : Nat
  payload : List Nat
  deriving DecidableEq, Repr

/-- The error cases surfaced by the embedded fragment (the source uses
`anyhow` string errors; each constructor names one `anyhow!` site). -/
inductive IspError where
  | responseTooShort
  | unknownCommandType (b : Nat)
  | incompleteResponsePayload
  | incompleteCommandSend
  | noResponseReceived
  | kindMismatch
  | transportFailure
  | programFailed (address : Nat)
  | programIncomplete
  | verifyFailed (address : Nat)
  | verifyMismatch (address : Nat)
  | unknownChip (chip_id device_type : Nat)
  | unprotectReadFailed
  | unprotectWriteFailed
  deriving DecidableEq, Repr

/-- Little-endian bytes of a `u32` (`u32::to_le_bytes`). -/
def u32le (n : Nat) : List Nat :=
  [n % 256, n / 2 ^ 8 % 256, n / 2 ^ 16 % 256, n / 2 ^ 24 % 256]

/-- `Command::identify` (`protocol.rs` lines 45-54). -/
def Command.identify (chip_id device_type : Nat) : Command :=
  ⟨.Identify, [chip_id, device_type, 0, 0, 0, 0]⟩

/-- `Command::isp_key` (`protocol.rs` lines 56-61). -/
def Command.isp_key (key_seed : List Nat) : Command :=
  ⟨.IspKey, key_seed⟩

/-- `Command::erase` (`protocol.rs` lines 63-71). -/
def Command.erase (sectors : Nat) : Command :=
  ⟨.Erase, u32le sectors⟩

/-- `Command::program` (`protocol.rs` lines 73-83): 4-byte LE address,
one padding byte, then the data bytes. -/
def Command.program (address padding : Nat) (data : List Nat) : Command :=
  ⟨.Program, u32le address ++ padding :: data⟩

/-- `Command::verify` (`protocol.rs` lines 85-95). -/
def Command.verify (address padding : Nat) (data : List Nat) : Command :=
  ⟨.Verify, u32le address ++ padding :: data⟩

/-- `Command::read_config` (`protocol.rs` lines 97-105). -/
def Command.read_config (mask : Nat) : Command :=
  ⟨.ReadConfig, u32le mask⟩

/-- `Command::write_config` (`protocol.rs` lines 107-116). -/
def Command.write_config (mask : Nat) (data : List Nat) : Command :=
  ⟨.WriteConfig, u32le mask ++ data⟩

/-- `Command::isp_end` (`protocol.rs` lines 118-123). -/
def Command.isp_end (reset : Nat) : Command :=
  ⟨.IspEnd, [reset]⟩

/-- `Command::data_erase` (`protocol.rs` lines 125-133): 2-byte LE sector count. -/
def Command.data_erase (sectors : Nat) : Command :=
  ⟨.DataErase, [sectors % 256, sectors / 2 ^ 8 % 256]⟩

/-- `Command::into_raw` (`protocol.rs` lines 159-168): kind byte, payload
length truncated to `u8`, reserved `0x00`, then the payload bytes. -/
def Command.into_raw (c : Command) : List Nat :=
  c.cmd_type.toByte :: c.payload.length % 256 :: 0x00 :: c.payload

/-- `Response::from_raw` (`protocol.rs` lines 173-216): needs at least 4
bytes; byte 0 is the kind, byte 1 the declared payload length, byte 2 the
status; the payload is bytes 4 to 4 + declared length. -/
def Response.from_raw (raw : List Nat) : Except IspError Response :=
  if raw.length < 4 then .error .responseTooShort
  else
    match byteToCommandType (raw.getD 0 0) with
    | none => .error (.unknownCommandType (raw.getD 0 0))
    | some cmd_type =>
      if raw.length < 4 + raw.getD 1 0 then .error .incompleteResponsePayload
      else .ok ⟨cmd_type, raw.getD 2 0, (raw.drop 4).take (raw.getD 1 0)⟩

/-- `ProtocolHandler::transfer_with_timeout` (`protocol.rs` lines 246-286),
with the `send_raw` / `recv_raw` outcomes of the transport supplied as parameters
(the transport is external to the core). -/
def transfer_with_timeout (sendResult : Except IspError Nat)
    (recvResult : Except IspError (List Nat)) (cmd : Command) :
    Except IspError Response :=
  let req := cmd.into_raw
  match sendResult with
  | .error e => .error e
  | .ok bytes_sent =>
    if bytes_sent ≠ req.length then .error .incompleteCommandSend
    else
      match recvResult with
      | .error e => .error e
      | .ok resp_data =>
        if resp_data = [] then .error .noResponseReceived
        else
          match Response.from_raw resp_data with
          | .error e => .error e
          | .ok response =>
            if response.cmd_type ≠ cmd.cmd_type then .error .kindMismatch
            else .ok response

/-- `CFG_MASK_ALL` (`protocol.rs` line 318). -/
def CFG_MASK_ALL : Nat := 0x1F

/-- `CFG_MASK_RDPR_USER_DATA_WPR` (`protocol.rs` line 319). -/
def CFG_MASK_RDPR_USER_DATA_WPR : Nat := 0x07

/-- Chip family tag (`device.rs`, `ChipFamily`). -/
inductive ChipFamily where
  | CH32V
  | CH32F
  | CH549
  | CH552
  | CH582
  | CH579
  | CH559
  | CH592
  | CH573
  | CH32V003
  | CH32X035
  | Unknown
  deriving DecidableEq, Repr

/-- One field of a configuration register (`device.rs`, `ConfigField`). -/
structure ConfigField where
  name : String
  bit_range : Nat × Nat
  explaination : List (String × String)
  deriving DecidableEq, Repr

/-- A configuration register description (`device.rs`, `ConfigRegister`). -/
structure ConfigRegister where
  name : String
  offset : Nat
  reset : Option Nat
  enable_debug : Option Nat
  fields : List ConfigField
  explaination : List (String × String)
  deriving DecidableEq, Repr

/-- Chip descriptor (`device.rs`, `Chip`). -/
structure Chip where
  name : String
  chip_id : Nat
  device_type : Nat
  flash_size : Nat
  eeprom_size : Nat
  config_registers : List ConfigRegister
  family : ChipFamily
  deriving DecidableEq, Repr

/-- `Chip::ch32v307` (`device.rs` lines 54-64). -/
def Chip.ch32v307 : Chip := ⟨"CH32V307", 0x70, 0x17, 256 * 1024, 0, [], .CH32V⟩

/-- `Chip::ch32v103` (`device.rs` lines 67-77). -/
def Chip.ch32v103 : Chip := ⟨"CH32V103", 0x30, 0x30, 64 * 1024, 0, [], .CH32V⟩

/-- `Chip::ch32f103` (`device.rs` lines 80-90). -/
def Chip.ch32f103 : Chip := ⟨"CH32F103", 0x10, 0x30, 128 * 1024, 0, [], .CH32F⟩

/-- `Chip::ch582` (`device.rs` lines 93-103). -/
def Chip.ch582 : Chip := ⟨"CH582", 0x82, 0x82, 448 * 1024, 32 * 1024, [], .CH582⟩

/-- `Chip::ch32v203` (`device.rs` lines 106-116). -/
def Chip.ch32v203 : Chip := ⟨"CH32V203", 0x30, 0x19, 64 * 1024, 0, [], .CH32V⟩

/-- `Chip::ch32v003` (`device.rs` lines 119-129). -/
def Chip.ch32v003 : Chip := ⟨"CH32V003", 0x30, 0x21, 16 * 1024, 0, [], .CH32V003⟩

/-- `Chip::ch32x035` (`device.rs` lines 132-142). -/
def Chip.ch32x035 : Chip := ⟨"CH32X035", 0x50, 0x23, 62 * 1024, 0, [], .CH32X035⟩

/-- `Chip::ch549` (`device.rs` lines 145-155). -/
def Chip.ch549 : Chip := ⟨"CH549", 0x49, 0x11, 62 * 1024, 0, [], .CH549⟩

/-- `Chip::ch552` (`device.rs` lines 158-168). -/
def Chip.ch552 : Chip := ⟨"CH552", 0x52, 0x11, 16 * 1024, 0, [], .CH552⟩

/-- `Chip::ch573` (`device.rs` lines 171-181). -/
def Chip.ch573 : Chip := ⟨"CH573", 0x73, 0x13, 448 * 1024, 32 * 1024, [], .CH573⟩

/-- `Chip::ch579` (`device.rs` lines 184-194). -/
def Chip.ch579 : Chip := ⟨"CH579", 0x79, 0x13, 250 * 1024, 2 * 1024, [], .CH579⟩

/-- `Chip::ch559` (`device.rs` lines 197-207). -/
def Chip.ch559 : Chip := ⟨"CH559", 0x59, 0x22, 62 * 1024, 0, [], .CH559⟩

/-- `Chip::ch592` (`device.rs` lines 210-220). -/
def Chip.ch592 : Chip := ⟨"CH592", 0x92, 0x13, 250 * 1024, 2 * 1024, [], .CH592⟩

/-- `Chip::min_erase_sector_number` (`device.rs` lines 226-228): always 1. -/
def Chip.min_erase_sector_number (_ : Chip) : Nat := 1

/-- `Chip::sector_size` (`device.rs` lines 230-232): always 1024. -/
def Chip.sector_size (_ : Chip) : Nat := 1024

/-- The table built by `ChipDB::load` (`device.rs` lines 262-314), keyed by
(chip_id, device_type); all thirteen keys are distinct, so modelling the
`HashMap` as a first-match association list is exact. -/
def chipDBTable : List ((Nat × Nat) × Chip) :=
  [((0x70, 0x17), Chip.ch32v307),
   ((0x30, 0x30), Chip.ch32v103),
   ((0x10, 0x30), Chip.ch32f103),
   ((0x82, 0x82), Chip.ch582),
   ((0x30, 0x19), Chip.ch32v203),
   ((0x30, 0x21), Chip.ch32v003),
   ((0x50, 0x23), Chip.ch32x035),
   ((0x49, 0x11), Chip.ch549),
   ((0x52, 0x11), Chip.ch552),
   ((0x73, 0x13), Chip.ch573),
   ((0x79, 0x13), Chip.ch579),
   ((0x59, 0x22), Chip.ch559),
   ((0x92, 0x13), Chip.ch592)]

/-- The `HashMap::get` step of `ChipDB::find_chip`. -/
def chipDBLookup (chip_id device_type : Nat) : Option Chip :=
  (chipDBTable.find? (fun p => p.1 = (chip_id, device_type))).map (fun p => p.2)

/-- Uppercase hex digit of a value below 16 (Rust 02X formatting). -/
def hexDigitUpper (n : Nat) : Char :=
  if n < 10 then Char.ofNat (48 + n) else Char.ofNat (55 + n)

/-- Two-digit uppercase hex rendering of a byte (Rust 02X format on `u8`). -/
def hexByteUpper (n : Nat) : String :=
  String.mk [hexDigitUpper (n / 16), hexDigitUpper (n % 16)]

/-- The synthesized descriptor built by the fallback branch of
`ChipDB::find_chip` (`device.rs` lines 320-330). -/
def unknownChip (chip_id device_type : Nat) : Chip :=
  ⟨"Unknown[0x" ++ hexByteUpper chip_id ++ hexByteUpper device_type ++ "]",
   chip_id, device_type, 64 * 1024, 0, [], .Unknown⟩

/-- `ChipDB::find_chip` (`device.rs` lines 316-332): table lookup, with an
`or_else` fallback to the synthesized descriptor and a (dead) `ok_or_else`
error arm. -/
def findChip (chip_id device_type : Nat) : Except IspError Chip :=
  match (chipDBLookup chip_id device_type).orElse
      (fun _ => some (unknownChip chip_id device_type)) with
  | some chip => .ok chip
  | none => .error (.unknownChip chip_id device_type)

/-- Wrapping `u32` addition (`+` on `u32` in release mode). -/
def wadd32 (a b : Nat) : Nat := (a + b) % 2 ^ 32

/-- Wrapping `u32` subtraction. -/
def wsub32 (a b : Nat) : Nat := (a + 2 ^ 32 - b % 2 ^ 32) % 2 ^ 32

/-- The sector count computed by `AndroidFlashing::flash_firmware`
(`flashing.rs` lines 136-137):
`((len as u32 + sector_size - 1) / sector_size).max(min_erase_sector_number)`. -/
def flashSectorsNeeded (chip : Chip) (firmware_len : Nat) : Nat :=
  max (wsub32 (wadd32 (firmware_len % 2 ^ 32) chip.sector_size) 1 / chip.sector_size)
    chip.min_erase_sector_number

/-- The wrapping byte sum used by `AndroidFlashing::generate_xor_key`
(`flashing.rs` lines 343-345): a `u8` `overflowing_add` fold. -/
def wrappingSumU8 (bytes : List Nat) : Nat :=
  bytes.foldl (fun acc x => (acc + x) % 256) 0

/-- `AndroidFlashing::generate_xor_key` (`flashing.rs` lines 342-351):
eight copies of the UID checksum, with the chip id wrapping-added into the
last byte. -/
def generate_xor_key (chip_uid : List Nat) (chip_id : Nat) : List Nat :=
  (List.replicate 8 (wrappingSumU8 chip_uid)).set 7
    ((wrappingSumU8 chip_uid + chip_id) % 256)

/-- The per-chunk XOR step of `program_flash` / `verify_firmware`
(`flashing.rs` lines 231-235): byte i is XORed with `key[i % 8]`. -/
def encryptChunk (key chunk : List Nat) : List Nat :=
  chunk.enum.map (fun p => Nat.xor p.2 (key.getD (p.1 % 8) 0))

/-- Helper for `chunks56`: the same recursion on an explicit fuel bound so
that the function is structurally recursive and computes by kernel
reduction; `chunks56` supplies `data.length`, which `chunksGo_fuel` shows
is always enough fuel. -/
def chunksGo : Nat → List Nat → List (List Nat)
  | 0, _ => []
  | fuel + 1, data =>
    if data = [] then [] else data.take 56 :: chunksGo fuel (data.drop 56)

/-- `data.chunks(56)` (`flashing.rs` line 228): consecutive 56-byte slices,
the final one possibly shorter; an empty slice yields no chunks. -/
def chunks56 (data : List Nat) : List (List Nat) :=
  chunksGo data.length data

theorem chunksGo_nil (fuel : Nat) : chunksGo fuel [] = [] := by
  cases fuel <;> rfl

theorem chunksGo_fuel (fuel : Nat) :
    ∀ fuel2 (data : List Nat), data.length ≤ fuel → data.length ≤ fuel2 →
    chunksGo fuel data = chunksGo fuel2 data := by
  induction fuel with
  | zero =>
    intro fuel2 data h1 _
    have : data = [] := List.length_eq_zero.mp (Nat.le_zero.mp h1)
    subst this
    rw [chunksGo_nil, chunksGo_nil]
  | succ fuel ih =>
    intro fuel2 data h1 h2
    cases data with
    | nil => rw [chunksGo_nil, chunksGo_nil]
    | cons x xs =>
      cases fuel2 with
      | zero => simp at h2
      | succ fuel2 =>
        simp only [chunksGo, List.cons_ne_nil, if_false]
        have hdl : ((x :: xs).drop 56).length ≤ fuel := by
          simp only [List.length_drop, List.length_cons] at h1 ⊢
          omega
        have hd2 : ((x :: xs).drop 56).length ≤ fuel2 := by
          simp only [List.length_drop, List.length_cons] at h2 ⊢
          omega
        rw [ih fuel2 _ hdl hd2]

/-- The defining recursion of `chunks56`, matching `slice::chunks(56)`. -/
theorem chunks56_eq (data : List Nat) :
    chunks56 data =
      if data = [] then [] else data.take 56 :: chunks56 (data.drop 56) := by
  cases data with
  | nil => rfl
  | cons x xs =>
    simp only [List.cons_ne_nil, if_false, chunks56]
    simp only [List.length_cons, chunksGo, List.cons_ne_nil, if_false]
    rw [chunksGo_fuel xs.length ((x :: xs).drop 56).length ((x :: xs).drop 56)
      (by simp only [List.length_drop, List.length_cons]; omega) le_rfl]

/-- The chunk loop of `AndroidFlashing::program_flash` (`flashing.rs`
lines 228-264) over an already-chunked list, followed by the terminating
empty-payload `Program` command.  `pad` supplies the `rand::random::<u8>()`
draws and `resps` the device response to the n-th issued command; the
returned list is the trace of issued commands. -/
def programGo (chip_uid : List Nat) (chip_id : Nat) (pad : Nat → Nat)
    (resps : Nat → Response) :
    List (List Nat) → Nat → Nat → List Command × Except IspError Unit
  | [], address, idx =>
    let cmd := Command.program address 0 []
    if (resps idx).status = 0 then ([cmd], .ok ())
    else ([cmd], .error .programIncomplete)
  | chunk :: rest, address, idx =>
    let xor_key := generate_xor_key chip_uid chip_id
    let cmd := Command.program address (pad idx) (encryptChunk xor_key chunk)
    if (resps idx).status = 0 then
      let r := programGo chip_uid chip_id pad resps rest
        ((address + chunk.length) % 2 ^ 32) (idx + 1)
      (cmd :: r.1, r.2)
    else ([cmd], .error (.programFailed address))

/-- `AndroidFlashing::program_flash` (`flashing.rs` lines 221-268) at the
response-oracle level: chunk the data at 56 bytes and run the loop from
address 0. -/
def program_flash (chip_uid : List Nat) (chip_id : Nat) (pad : Nat → Nat)
    (resps : Nat → Response) (data : List Nat) :
    List Command × Except IspError Unit :=
  programGo chip_uid chip_id pad resps (chunks56 data) 0 0

/-- The chunk loop of `AndroidFlashing::verify_firmware` (`flashing.rs`
lines 276-298): per chunk, a non-zero status fails at the address of the chunk,
and a non-empty payload whose first byte is non-zero is a mismatch at that
address; either error stops the loop. -/
def verifyGo (chip_uid : List Nat) (chip_id : Nat) (pad : Nat → Nat)
    (resps : Nat → Response) :
    List (List Nat) → Nat → Nat → List Command × Except IspError Unit
  | [], _, _ => ([], .ok ())
  | chunk :: rest, address, idx =>
    let xor_key := generate_xor_key chip_uid chip_id
    let cmd := Command.verify address (pad idx) (encryptChunk xor_key chunk)
    if (resps idx).status ≠ 0 then ([cmd], .error (.verifyFailed address))
    else if 0 < (resps idx).payload.length ∧ (resps idx).payload.getD 0 0 ≠ 0 then
      ([cmd], .error (.verifyMismatch address))
    else
      let r := verifyGo chip_uid chip_id pad resps rest
        ((address + chunk.length) % 2 ^ 32) (idx + 1)
      (cmd :: r.1, r.2)

/-- `AndroidFlashing::verify_firmware` (`flashing.rs` lines 270-302) at the
response-oracle level. -/
def verify_firmware (chip_uid : List Nat) (chip_id : Nat) (pad : Nat → Nat)
    (resps : Nat → Response) (expected_data : List Nat) :
    List Command × Except IspError Unit :=
  verifyGo chip_uid chip_id pad resps (chunks56 expected_data) 0 0

/-- Outcome of `unprotect_flash`: a Rust panic, an error return (carrying
the `code_flash_protected` flag as left by the function), or success
(carrying the final flag and the issued `WriteConfig` command). -/
inductive UnprotectOutcome where
  | panicked
  | err (code_flash_protected : Bool) (e : IspError)
  | ok (code_flash_protected : Bool) (written : Command)
  deriving DecidableEq, Repr

/-- `AndroidFlashing::unprotect_flash` (`flashing.rs` lines 152-177) given
the decoded `ReadConfig` and `WriteConfig` responses.  The slice
`resp.payload()[2..14]` panics when the payload is shorter than 14 bytes;
otherwise the 12-byte block gets bytes 0/1 set to `0xa5`/`0x5a` and bytes
8..12 set to `0xff` before being written back. -/
def unprotect_flash (readResp writeResp : Response)
    (code_flash_protected : Bool) : UnprotectOutcome :=
  if readResp.status ≠ 0 then .err code_flash_protected .unprotectReadFailed
  else if readResp.payload.length < 14 then .panicked
  else
    let config :=
      (((((((readResp.payload.drop 2).take 12).set 0 0xa5).set 1 0x5a).set 8
        0xff).set 9 0xff).set 10 0xff).set 11 0xff
    let write_conf := Command.write_config CFG_MASK_RDPR_USER_DATA_WPR config
    if writeResp.status ≠ 0 then .err code_flash_protected .unprotectWriteFailed
    else .ok false write_conf

/-- Number of 56-byte chunks of a `len`-byte image (spec-side arithmetic,
`ceil(len / 56)`). -/
def chunkCount (len : Nat) : Nat := (len + 55) / 56

/-- Spec-side per-chunk acceptance predicate of `verify_firmware`: the
response has status 0 and its payload is empty or starts with byte 0. -/
def chunkRespOk (r : Response) : Prop :=
  r.status = 0 ∧ (r.payload.length = 0 ∨ r.payload.getD 0 0 = 0)

instance (r : Response) : Decidable (chunkRespOk r) := by
  unfold chunkRespOk
  infer_instance

instance instDecEqExceptIsp {ε α : Type} [DecidableEq ε] [DecidableEq α] :
    DecidableEq (Except ε α) := fun a b =>
  match a, b with
  | .ok x, .ok y =>
    if h : x = y then isTrue (by rw [h]) else isFalse (by simp [h])
  | .error x, .error y =>
    if h : x = y then isTrue (by rw [h]) else isFalse (by simp [h])
  | .ok _, .error _ => isFalse (by simp)
  | .error _, .ok _ => isFalse (by simp)

theorem byteToCommandType_toByte (k : CommandType) :
    byteToCommandType k.toByte = some k := by
  cases k <;> rfl

theorem byteToCommandType_eq_none (b : Nat) :
    byteToCommandType b = none ↔
      b ∉ [0xa1, 0xa2, 0xa3, 0xa4, 0xa5, 0xa6, 0xa7, 0xa8, 0xa9, 0xaa, 0xab] := by
  constructor
  · intro h hmem
    simp only [List.mem_cons, List.not_mem_nil, or_false] at hmem
    rcases hmem with rfl | rfl | rfl | rfl | rfl | rfl | rfl | rfl | rfl | rfl | rfl <;>
      exact absurd h (by decide)
  · intro hmem
    simp only [List.mem_cons, List.not_mem_nil, or_false, not_or] at hmem
    obtain ⟨n1, n2, n3, n4, n5, n6, n7, n8, n9, n10, n11⟩ := hmem
    unfold byteToCommandType
    rw [if_neg n1, if_neg n2, if_neg n3, if_neg n4, if_neg n5, if_neg n6,
      if_neg n7, if_neg n8, if_neg n9, if_neg n10, if_neg n11]

/-- C10: `Command::into_raw` stores the payload length truncated to `u8`
(byte 1 equals the true length mod 256) while appending every payload byte,
so the declared length is exact precisely when the payload has at most 255
bytes. -/
theorem into_raw_length_byte (cmd : Command) :
    (cmd.into_raw).getD 1 0 = cmd.payload.length % 256 ∧
    (cmd.into_raw).drop 3 = cmd.payload ∧
    ((cmd.into_raw).getD 1 0 = cmd.payload.length ↔ cmd.payload.length ≤ 255) := by
  refine ⟨rfl, rfl, ?_⟩
  have h1 : (cmd.into_raw).getD 1 0 = cmd.payload.length % 256 := rfl
  rw [h1]
  omega

/-- C8: `Response::from_raw` rejects buffers shorter than 4 bytes, buffers
whose first byte is not one of the eleven kind bytes `0xa1`..`0xab`, and
buffers whose declared payload length (byte 1) exceeds the bytes remaining
after the 4-byte header; any buffer passing all three checks decodes to the
response with that kind, status byte 2, and payload bytes 4..4+len. -/
theorem from_raw_spec (raw : List Nat) :
    (raw.length < 4 → Response.from_raw raw = .error .responseTooShort) ∧
    (4 ≤ raw.length →
      raw.getD 0 0 ∉ [0xa1, 0xa2, 0xa3, 0xa4, 0xa5, 0xa6, 0xa7, 0xa8, 0xa9, 0xaa, 0xab] →
      Response.from_raw raw = .error (.unknownCommandType (raw.getD 0 0))) ∧
    (∀ k, 4 ≤ raw.length → byteToCommandType (raw.getD 0 0) = some k →
      raw.length < 4 + raw.getD 1 0 →
      Response.from_raw raw = .error .incompleteResponsePayload) ∧
    (∀ k, 4 ≤ raw.length → byteToCommandType (raw.getD 0 0) = some k →
      4 + raw.getD 1 0 ≤ raw.length →
      Response.from_raw raw = .ok ⟨k, raw.getD 2 0, (raw.drop 4).take (raw.getD 1 0)⟩) := by
  refine ⟨?_, ?_, ?_, ?_⟩
  · intro h
    unfold Response.from_raw
    rw [if_pos h]
  · intro h4 hmem
    have hnone := (byteToCommandType_eq_none (raw.getD 0 0)).mpr hmem
    unfold Response.from_raw
    rw [if_neg (by omega)]
    split
    · rfl
    · rename_i k hk
      rw [hnone] at hk
      exact absurd hk (by simp)
  · intro k h4 hk hlt
    unfold Response.from_raw
    rw [if_neg (by omega)]
    split
    · rename_i hn
      rw [hk] at hn
      exact absurd hn (by simp)
    · rename_i k2 hk2
      rw [hk] at hk2
      rw [if_pos hlt]
  · intro k h4 hk hle
    unfold Response.from_raw
    rw [if_neg (by omega)]
    split
    · rename_i hn
      rw [hk] at hn
      exact absurd hn (by simp)
    · rename_i k2 hk2
      rw [hk] at hk2
      rw [if_neg (by omega)]
      simp only [Option.some.injEq] at hk2
      rw [hk2]

/-- Witness for `from_raw_spec`: the 5-byte buffer `a1 01 00 00 05` decodes
to an Identify response with status 0 and payload `[05]`. -/
theorem from_raw_spec_witness :
    Response.from_raw [0xa1, 1, 0, 0, 5] =
      .ok ⟨CommandType.Identify, 0, [5]⟩ := by
  have h := (from_raw_spec [0xa1, 1, 0, 0, 5]).2.2.2 CommandType.Identify
    (by decide) (by decide) (by decide)
  simpa using h

/-- C1 counterexample: encoding the Identify command and decoding the
resulting frame does not succeed — the decoder reports an incomplete
payload, because the encoder emits a 3-byte header while the decoder
expects a 4-byte one. -/
theorem decode_encode_identify_fails :
    Response.from_raw (Command.identify 0 0).into_raw =
      .error IspError.incompleteResponsePayload := by
  decide

/-- C1 (amended): for every command kind and payload of at most 255 bytes,
decoding the encoded wire frame fails — with a too-short error for an empty
payload, otherwise with an incomplete-payload error — since the command
header is 3 bytes but response decoding consumes a 4-byte header. -/
theorem decode_encode_fails (k : CommandType) (payload : List Nat)
    (hlen : payload.length ≤ 255) :
    Response.from_raw (Command.mk k payload).into_raw =
      .error (if payload.length = 0 then IspError.responseTooShort
              else IspError.incompleteResponsePayload) := by
  rcases Nat.eq_zero_or_pos payload.length with h0 | hpos
  · have hnil : payload = [] := List.length_eq_zero.mp h0
    subst hnil
    cases k <;> rfl
  · rw [if_neg (by omega)]
    unfold Response.from_raw Command.into_raw
    rw [if_neg (by simp only [List.length_cons]; omega)]
    simp only [List.getD_cons_zero, List.getD_cons_succ]
    rw [byteToCommandType_toByte]
    split
    · rename_i h
      exact absurd h (by simp)
    · rename_i k2 hk2
      rw [if_pos (by
        simp only [List.length_cons]
        have : payload.length % 256 = payload.length := Nat.mod_eq_of_lt (by omega)
        omega)]

/-- Witness for `decode_encode_fails`: a Program command with payload
`[1, 2, 3]` encodes to a frame the decoder rejects as incomplete. -/
theorem decode_encode_fails_witness :
    Response.from_raw (Command.mk CommandType.Program [1, 2, 3]).into_raw =
      .error IspError.incompleteResponsePayload := by
  have h := decode_encode_fails CommandType.Program [1, 2, 3] (by decide)
  simpa using h

/-- C4: `transfer_with_timeout` returns a response only when its kind equals
the kind of the issued command; whenever the frame decodes to a response of a
different kind, the call fails with the kind-mismatch error. -/
theorem transfer_kind_match (sendResult : Except IspError Nat)
    (recvResult : Except IspError (List Nat)) (cmd : Command) :
    (∀ resp, transfer_with_timeout sendResult recvResult cmd = .ok resp →
      resp.cmd_type = cmd.cmd_type) ∧
    (∀ resp_data resp, sendResult = .ok cmd.into_raw.length →
      recvResult = .ok resp_data → resp_data ≠ [] →
      Response.from_raw resp_data = .ok resp → resp.cmd_type ≠ cmd.cmd_type →
      transfer_with_timeout sendResult recvResult cmd = .error .kindMismatch) := by
  constructor
  · intro resp h
    unfold transfer_with_timeout at h
    rcases sendResult with e | n
    · exact absurd h (by simp)
    · simp only [] at h
      split at h
      · exact absurd h (by simp)
      · rcases recvResult with e | rd
        · exact absurd h (by simp)
        · simp only [] at h
          split at h
          · exact absurd h (by simp)
          · rcases hfr : Response.from_raw rd with e | r
            · rw [hfr] at h
              exact absurd h (by simp)
            · rw [hfr] at h
              split at h
              · rename_i e heq
                exact absurd heq (by simp)
              · rename_i response heq
                obtain rfl : response = r := by
                  injection heq with h2
                  exact h2.symm
                split at h
                · exact absurd h (by simp)
                · rename_i hnn
                  rw [not_not] at hnn
                  cases h
                  exact hnn
  · intro resp_data resp hsend hrecv hne hfr hkind
    subst hsend
    subst hrecv
    simp [transfer_with_timeout, hne, hfr, hkind]

/-- Witness for `transfer_kind_match`: an Identify command whose reply frame
decodes to an IspEnd response makes the transfer fail with kind mismatch. -/
theorem transfer_kind_match_witness :
    transfer_with_timeout (.ok 9) (.ok [0xa2, 0, 0, 0]) (Command.identify 0 0) =
      .error IspError.kindMismatch := by
  have h := (transfer_kind_match (.ok 9) (.ok [0xa2, 0, 0, 0])
      (Command.identify 0 0)).2 [0xa2, 0, 0, 0] ⟨CommandType.IspEnd, 0, []⟩
    (by rfl) rfl (by decide) (by rfl) (by decide)
  exact h

/-- C5: `ChipDB::find_chip` is total: a key present in the loaded table
returns exactly the stored descriptor, and any other key returns (never an
error) the synthesized descriptor named `Unknown[0x<hex id><hex type>]`
with family Unknown, 64 KiB flash, no EEPROM and no config registers. -/
theorem findChip_total (chip_id device_type : Nat) :
    (∀ chip, chipDBLookup chip_id device_type = some chip →
      findChip chip_id device_type = .ok chip) ∧
    (chipDBLookup chip_id device_type = none →
      findChip chip_id device_type =
        .ok ⟨"Unknown[0x" ++ hexByteUpper chip_id ++ hexByteUpper device_type ++ "]",
          chip_id, device_type, 64 * 1024, 0, [], ChipFamily.Unknown⟩) ∧
    (∃ chip, findChip chip_id device_type = .ok chip) := by
  refine ⟨?_, ?_, ?_⟩
  · intro chip h
    unfold findChip
    rw [h]
    rfl
  · intro h
    unfold findChip
    rw [h]
    rfl
  · rcases h : chipDBLookup chip_id device_type with _ | chip
    · exact ⟨unknownChip chip_id device_type, by unfold findChip; rw [h]; rfl⟩
    · exact ⟨chip, by unfold findChip; rw [h]; rfl⟩

/-- Witness for `findChip_total`: the stored CH32V307 key returns the stored
descriptor, and the absent key (0xFF, 0xFF) returns the synthesized
Unknown[0xFFFF] descriptor. -/
theorem findChip_total_witness :
    findChip 0x70 0x17 = .ok Chip.ch32v307 ∧
    findChip 0xFF 0xFF =
      .ok ⟨"Unknown[0xFFFF]", 0xFF, 0xFF, 64 * 1024, 0, [], ChipFamily.Unknown⟩ := by
  constructor
  · exact (findChip_total 0x70 0x17).1 Chip.ch32v307 (by rfl)
  · have h := (findChip_total 0xFF 0xFF).2.1 (by rfl)
    have hs : "Unknown[0x" ++ hexByteUpper 0xFF ++ hexByteUpper 0xFF ++ "]" =
        "Unknown[0xFFFF]" := by decide
    rw [hs] at h
    exact h

/-- C6: the sector count computed by `flash_firmware` equals
`max(min_erase_sectors, ceil(firmware_len / sector_size))` with the
resolved chip `sector_size = 1024` and `min_erase_sector_number = 1`; in
particular 0 bytes need 1 sector (the minimum), 1 byte needs 1 sector and
2048 bytes need 2. -/
theorem flash_sectors_spec (chip : Chip) (firmware_len : Nat)
    (hlen : firmware_len + 1024 < 2 ^ 32) :
    flashSectorsNeeded chip firmware_len =
      max chip.min_erase_sector_number
        (firmware_len / chip.sector_size +
          if firmware_len % chip.sector_size = 0 then 0 else 1) ∧
    flashSectorsNeeded chip 0 = chip.min_erase_sector_number ∧
    flashSectorsNeeded chip 1 = 1 ∧
    flashSectorsNeeded chip 2048 = 2 := by
  unfold flashSectorsNeeded wadd32 wsub32 Chip.sector_size Chip.min_erase_sector_number
  refine ⟨?_, by norm_num, by norm_num, by norm_num⟩
  have h1 : firmware_len % 2 ^ 32 = firmware_len := Nat.mod_eq_of_lt (by omega)
  rw [h1]
  have h2 : (firmware_len + 1024) % 2 ^ 32 = firmware_len + 1024 :=
    Nat.mod_eq_of_lt (by omega)
  rw [h2]
  have h3 : (firmware_len + 1024 + 2 ^ 32 - 1 % 2 ^ 32) % 2 ^ 32 =
      firmware_len + 1023 := by
    omega
  rw [h3]
  by_cases hm : firmware_len % 1024 = 0 <;> simp only [hm, if_true, if_false] <;> omega

/-- Witness for `flash_sectors_spec`: a 2048-byte image on the CH32V307
needs `max(1, 2048/1024) = 2` sectors. -/
theorem flash_sectors_spec_witness :
    flashSectorsNeeded Chip.ch32v307 2048 =
      max Chip.ch32v307.min_erase_sector_number
        (2048 / Chip.ch32v307.sector_size +
          if 2048 % Chip.ch32v307.sector_size = 0 then 0 else 1) :=
  (flash_sectors_spec Chip.ch32v307 2048 (by norm_num)).1

theorem foldl_wrapping_sum (bytes : List Nat) :
    ∀ a, bytes.foldl (fun acc x => (acc + x) % 256) (a % 256) =
      (a + bytes.sum) % 256 := by
  induction bytes with
  | nil => intro a; simp
  | cons x xs ih =>
    intro a
    simp only [List.foldl_cons, List.sum_cons]
    have h1 : (a % 256 + x) % 256 = (a + x) % 256 := by omega
    rw [h1, ih (a + x)]
    congr 1
    omega

theorem wrappingSumU8_eq (bytes : List Nat) :
    wrappingSumU8 bytes = bytes.sum % 256 := by
  have h := foldl_wrapping_sum bytes 0
  simpa [wrappingSumU8] using h

/-- C7: the XOR key is 8 bytes long; bytes 0..6 each equal the wrapping
(mod 256) sum of the UID bytes and byte 7 equals that sum wrapping-added to
the chip id.  The key is a pure function of the UID and chip id alone, so
every chunk of a session uses the same key. -/
theorem xor_key_spec (chip_uid : List Nat) (chip_id : Nat) :
    (generate_xor_key chip_uid chip_id).length = 8 ∧
    (∀ i, i < 7 → (generate_xor_key chip_uid chip_id).getD i 0 =
      chip_uid.sum % 256) ∧
    (generate_xor_key chip_uid chip_id).getD 7 0 =
      (chip_uid.sum % 256 + chip_id) % 256 := by
  refine ⟨by simp [generate_xor_key], ?_, ?_⟩
  · intro i hi
    interval_cases i <;>
      simp [generate_xor_key, List.replicate, wrappingSumU8_eq]
  · simp [generate_xor_key, List.replicate, wrappingSumU8_eq]

/-- Witness for `xor_key_spec`: on UID `[1, 2, 3]` and chip id 5, byte 0 of
the key is the UID sum 6 and byte 7 is 6 + 5 = 11. -/
theorem xor_key_spec_witness :
    (generate_xor_key [1, 2, 3] 5).getD 0 0 = ([1, 2, 3] : List Nat).sum % 256 ∧
    (generate_xor_key [1, 2, 3] 5).getD 7 0 =
      (([1, 2, 3] : List Nat).sum % 256 + 5) % 256 :=
  ⟨(xor_key_spec [1, 2, 3] 5).2.1 0 (by decide), (xor_key_spec [1, 2, 3] 5).2.2⟩

/-- C9: `unprotect_flash` is not total on success responses: a status-0
ReadConfig response with a payload shorter than 14 bytes makes the
`payload[2..14]` slice panic; when every success payload has at least 14
bytes the function is panic-free, and every error return then leaves the
protected flag unchanged. -/
theorem unprotect_panic_spec (readResp writeResp : Response) (prot : Bool) :
    (readResp.status = 0 → readResp.payload.length < 14 →
      unprotect_flash readResp writeResp prot = .panicked) ∧
    ((readResp.status = 0 → 14 ≤ readResp.payload.length) →
      unprotect_flash readResp writeResp prot ≠ .panicked) ∧
    ((readResp.status = 0 → 14 ≤ readResp.payload.length) →
      ∀ flag e, unprotect_flash readResp writeResp prot = .err flag e →
        flag = prot) := by
  refine ⟨?_, ?_, ?_⟩
  · intro h0 hlt
    unfold unprotect_flash
    rw [if_neg (by omega), if_pos hlt]
  · intro hpre
    unfold unprotect_flash
    by_cases h0 : readResp.status = 0
    · rw [if_neg (by omega), if_neg (by have := hpre h0; omega)]
      split <;> simp
    · rw [if_pos h0]
      simp
  · intro hpre flag e
    unfold unprotect_flash
    by_cases h0 : readResp.status = 0
    · rw [if_neg (by omega), if_neg (by have := hpre h0; omega)]
      split
      · intro h
        cases h
        rfl
      · intro h
        cases h
    · rw [if_pos h0]
      intro h
      cases h
      rfl

/-- Witness for `unprotect_panic_spec`: a status-0 ReadConfig response with
a 10-byte payload makes unprotect panic. -/
theorem unprotect_panic_spec_witness :
    unprotect_flash ⟨CommandType.ReadConfig, 0, List.replicate 10 0⟩
      ⟨CommandType.WriteConfig, 0, []⟩ true = UnprotectOutcome.panicked :=
  (unprotect_panic_spec ⟨CommandType.ReadConfig, 0, List.replicate 10 0⟩
    ⟨CommandType.WriteConfig, 0, []⟩ true).1 rfl (by simp)

theorem range_succ_map {α : Type} (f : Nat → α) (m : Nat) :
    (List.range (m + 1)).map f = f 0 :: (List.range m).map (fun i => f (i + 1)) := by
  rw [List.range_succ_eq_map, List.map_cons, List.map_map]
  rfl

theorem programGo_ok_trace (chip_uid : List Nat) (chip_id : Nat)
    (pad : Nat → Nat) (resps : Nat → Response)
    (hok : ∀ i, (resps i).status = 0) :
    ∀ n (data : List Nat), data.length ≤ n → ∀ address idx,
      address + data.length < 2 ^ 32 →
      programGo chip_uid chip_id pad resps (chunks56 data) address idx =
        ((List.range (chunkCount data.length)).map (fun i =>
            Command.program (address + 56 * i) (pad (idx + i))
              (encryptChunk (generate_xor_key chip_uid chip_id)
                ((data.drop (56 * i)).take 56))) ++
          [Command.program (address + data.length) 0 []], .ok ()) := by
  intro n
  induction n with
  | zero =>
    intro data hlen address idx _
    have hdata : data = [] := List.length_eq_zero.mp (Nat.le_zero.mp hlen)
    subst hdata
    rw [chunks56_eq]
    simp [programGo, chunkCount, hok idx]
  | succ n ih =>
    intro data hlen address idx haddr
    by_cases hd : data = []
    · subst hd
      rw [chunks56_eq]
      simp [programGo, chunkCount, hok idx]
    · have hpos : 0 < data.length := List.length_pos.mpr hd
      have hminle : min 56 data.length ≤ data.length := Nat.min_le_right 56 data.length
      have hmod : (address + (data.take 56).length) % 2 ^ 32 =
          address + min 56 data.length := by
        simp only [List.length_take]
        exact Nat.mod_eq_of_lt (by omega)
      have hrec := ih (data.drop 56)
        (by simp only [List.length_drop]; omega)
        (address + min 56 data.length) (idx + 1)
        (by simp only [List.length_drop]; omega)
      rw [chunks56_eq, if_neg hd]
      simp only [programGo]
      rw [if_pos (hok idx), hmod, hrec]
      have hcc : chunkCount data.length = chunkCount (data.length - 56) + 1 := by
        unfold chunkCount
        omega
      have hterm : address + min 56 data.length + (data.length - 56) =
          address + data.length := by
        omega
      have hmap : (List.range (chunkCount (data.length - 56))).map
            (fun i => Command.program (address + 56 * (i + 1)) (pad (idx + (i + 1)))
              (encryptChunk (generate_xor_key chip_uid chip_id)
                ((data.drop (56 * (i + 1))).take 56))) =
          (List.range (chunkCount (data.length - 56))).map
            (fun i => Command.program (address + min 56 data.length + 56 * i)
              (pad (idx + 1 + i))
              (encryptChunk (generate_xor_key chip_uid chip_id)
                (((data.drop 56).drop (56 * i)).take 56))) := by
        apply List.map_congr_left
        intro i hi
        rw [List.mem_range] at hi
        have hl57 : 57 ≤ data.length := by
          unfold chunkCount at hi
          omega
        have hmin56 : min 56 data.length = 56 := by omega
        rw [List.drop_drop, hmin56]
        rw [show address + 56 * (i + 1) = address + 56 + 56 * i by ring]
        rw [show idx + (i + 1) = idx + 1 + i by ring]
        rw [show 56 * (i + 1) = 56 + 56 * i by ring]
      simp only [hcc, range_succ_map, List.cons_append]
      rw [hmap]
      simp only [List.length_drop]
      rw [hterm]
      simp only [Nat.mul_zero, Nat.add_zero, List.drop_zero]

/-- C2: on an all-success device, `program_flash` issues one `Program`
command per 56-byte chunk — the i-th at the chunk byte offset `56 * i`
with the (encrypted) bytes of that chunk — followed by exactly one terminating
`Program` command with empty payload and padding 0 at address equal to the
total data length; every chunk command has a non-empty payload, so the
terminator is the unique empty-payload frame. -/
theorem program_flash_trace (chip_uid : List Nat) (chip_id : Nat)
    (pad : Nat → Nat) (resps : Nat → Response) (data : List Nat)
    (hlen : data.length < 2 ^ 32) (hok : ∀ i, (resps i).status = 0) :
    program_flash chip_uid chip_id pad resps data =
      ((List.range (chunkCount data.length)).map (fun i =>
          Command.program (56 * i) (pad i)
            (encryptChunk (generate_xor_key chip_uid chip_id)
              ((data.drop (56 * i)).take 56))) ++
        [Command.program data.length 0 []], .ok ()) ∧
    (∀ i, i < chunkCount data.length → (data.drop (56 * i)).take 56 ≠ []) := by
  constructor
  · have h := programGo_ok_trace chip_uid chip_id pad resps hok data.length data
      le_rfl 0 0 (by omega)
    unfold program_flash
    simpa using h
  · intro i hi
    have h56 : 56 * i < data.length := by
      unfold chunkCount at hi
      omega
    intro hnil
    have hlength : ((data.drop (56 * i)).take 56).length =
        min 56 (data.length - 56 * i) := by simp
    rw [hnil] at hlength
    simp only [List.length_nil] at hlength
    omega

/-- Witness for `program_flash_trace`: a 130-byte image with all-success
responses yields `chunkCount 130 = 3` chunk commands (offsets 0, 56, 112 of
lengths 56, 56, 18) plus the terminating empty command at address 130. -/
theorem program_flash_trace_witness :
    program_flash [] 0 (fun _ => 0) (fun _ => ⟨CommandType.Program, 0, []⟩)
        (List.replicate 130 0) =
      ((List.range (chunkCount 130)).map (fun i =>
          Command.program (56 * i) 0
            (encryptChunk (generate_xor_key [] 0)
              (((List.replicate 130 0).drop (56 * i)).take 56))) ++
        [Command.program 130 0 []], .ok ()) ∧
    chunkCount 130 = 3 := by
  constructor
  · have h := (program_flash_trace [] 0 (fun _ => 0)
      (fun _ => ⟨CommandType.Program, 0, []⟩) (List.replicate 130 0)
      (by norm_num) (fun i => rfl)).1
    simpa using h
  · rfl

/-- C3 counterexample: on a single-chunk input where the device answers
status 0 with an empty payload, `verify_firmware` succeeds even though the
response has no first payload byte equal to 0 — the code only checks
`payload[0]` when the payload is non-empty. -/
theorem verify_empty_payload_succeeds :
    (verify_firmware [] 0 (fun _ => 0) (fun _ => ⟨CommandType.Verify, 0, []⟩)
      [1, 2, 3]).2 = .ok () ∧
    (Response.mk CommandType.Verify 0 []).payload.head? ≠ some 0 := by
  constructor
  · rfl
  · decide

theorem verifyGo_ok_trace (chip_uid : List Nat) (chip_id : Nat)
    (pad : Nat → Nat) (resps : Nat → Response) :
    ∀ n (data : List Nat), data.length ≤ n → ∀ address idx,
      (∀ i, i < chunkCount data.length → chunkRespOk (resps (idx + i))) →
      ∃ trace,
        verifyGo chip_uid chip_id pad resps (chunks56 data) address idx =
          (trace, .ok ()) ∧
        trace.length = chunkCount data.length := by
  intro n
  induction n with
  | zero =>
    intro data hlen address idx _
    have hdata : data = [] := List.length_eq_zero.mp (Nat.le_zero.mp hlen)
    subst hdata
    rw [chunks56_eq]
    exact ⟨[], by simp [verifyGo], by simp [chunkCount]⟩
  | succ n ih =>
    intro data hlen address idx hall
    by_cases hd : data = []
    · subst hd
      rw [chunks56_eq]
      exact ⟨[], by simp [verifyGo], by simp [chunkCount]⟩
    · have hpos : 0 < data.length := List.length_pos.mpr hd
      have hcc : chunkCount data.length = chunkCount (data.length - 56) + 1 := by
        unfold chunkCount
        omega
      have hok0 : chunkRespOk (resps idx) := by
        have h := hall 0 (by omega)
        simpa using h
      obtain ⟨hst, hpl⟩ := hok0
      have hrec := ih (data.drop 56)
        (by simp only [List.length_drop]; omega)
        ((address + (data.take 56).length) % 2 ^ 32) (idx + 1)
        (by
          intro i hi
          simp only [List.length_drop] at hi
          have h := hall (i + 1) (by omega)
          simpa [show idx + (i + 1) = idx + 1 + i from by ring] using h)
      obtain ⟨t, ht, htlen⟩ := hrec
      refine ⟨Command.verify address (pad idx)
        (encryptChunk (generate_xor_key chip_uid chip_id) (data.take 56)) :: t,
        ?_, ?_⟩
      · rw [chunks56_eq, if_neg hd]
        simp only [verifyGo]
        rw [if_neg (by omega)]
        rw [if_neg (by
          rintro ⟨h1, h2⟩
          rcases hpl with h | h
          · omega
          · exact h2 h)]
        rw [ht]
      · simp only [List.length_cons, List.length_drop] at htlen ⊢
        omega

theorem verifyGo_fail_trace (chip_uid : List Nat) (chip_id : Nat)
    (pad : Nat → Nat) (resps : Nat → Response) :
    ∀ j (data : List Nat) address idx,
      address + data.length < 2 ^ 32 →
      j < chunkCount data.length →
      (∀ i, i < j → chunkRespOk (resps (idx + i))) →
      ¬ chunkRespOk (resps (idx + j)) →
      ∃ trace,
        verifyGo chip_uid chip_id pad resps (chunks56 data) address idx =
          (trace, .error (if (resps (idx + j)).status ≠ 0
            then IspError.verifyFailed (address + 56 * j)
            else IspError.verifyMismatch (address + 56 * j))) ∧
        trace.length = j + 1 := by
  intro j
  induction j with
  | zero =>
    intro data address idx _ hj hprev hbad
    have hpos : 0 < data.length := by
      unfold chunkCount at hj
      omega
    have hd : data ≠ [] := by
      intro h
      subst h
      simp at hpos
    rw [Nat.add_zero] at hbad
    refine ⟨[Command.verify address (pad idx)
      (encryptChunk (generate_xor_key chip_uid chip_id) (data.take 56))],
      ?_, rfl⟩
    rw [chunks56_eq, if_neg hd]
    simp only [verifyGo]
    by_cases hst : (resps idx).status ≠ 0
    · rw [if_pos hst]
      simp [hst]
    · have hst0 : (resps idx).status = 0 := by omega
      simp only [chunkRespOk, not_and, not_or] at hbad
      obtain ⟨hl0, hg0⟩ := hbad hst0
      rw [if_neg hst]
      rw [if_pos ⟨by omega, hg0⟩]
      simp [hst]
  | succ j ihj =>
    intro data address idx haddr hj hprev hbad
    have hl57 : 57 ≤ data.length := by
      unfold chunkCount at hj
      omega
    have hd : data ≠ [] := by
      intro h
      subst h
      simp at hl57
    have hok0 : chunkRespOk (resps idx) := by
      have h := hprev 0 (by omega)
      simpa using h
    obtain ⟨hst, hpl⟩ := hok0
    have hmod : (address + (data.take 56).length) % 2 ^ 32 = address + 56 := by
      simp only [List.length_take]
      have hm : min 56 data.length = 56 := by omega
      rw [hm]
      exact Nat.mod_eq_of_lt (by omega)
    have hrec := ihj (data.drop 56) (address + 56) (idx + 1)
      (by simp only [List.length_drop]; omega)
      (by
        simp only [List.length_drop]
        unfold chunkCount at hj ⊢
        omega)
      (by
        intro i hi
        have h := hprev (i + 1) (by omega)
        simpa [show idx + (i + 1) = idx + 1 + i from by ring] using h)
      (by simpa [show idx + (j + 1) = idx + 1 + j from by ring] using hbad)
    obtain ⟨t, ht, htlen⟩ := hrec
    refine ⟨Command.verify address (pad idx)
      (encryptChunk (generate_xor_key chip_uid chip_id) (data.take 56)) :: t,
      ?_, by simp [htlen]⟩
    rw [chunks56_eq, if_neg hd]
    simp only [verifyGo]
    rw [if_neg (by omega)]
    rw [if_neg (by
      rintro ⟨h1, h2⟩
      rcases hpl with h | h
      · omega
      · exact h2 h)]
    rw [hmod, ht]
    simp [show idx + 1 + j = idx + (j + 1) from by ring,
      show address + 56 + 56 * j = address + 56 * (j + 1) from by ring]

/-- C3 (amended): per chunk, `verify_firmware` succeeds exactly when the
response has status 0 and its payload is empty or has first byte 0 (the
`payload[0]` check is skipped for an empty payload); the first chunk whose
response violates this makes the function return an error carrying the
byte address of that chunk — status failure and content mismatch respectively —
and no command is issued for any later chunk. -/
theorem verify_firmware_spec (chip_uid : List Nat) (chip_id : Nat)
    (pad : Nat → Nat) (resps : Nat → Response) (data : List Nat)
    (hlen : data.length < 2 ^ 32) :
    ((∀ i, i < chunkCount data.length → chunkRespOk (resps i)) →
      (verify_firmware chip_uid chip_id pad resps data).2 = .ok () ∧
      (verify_firmware chip_uid chip_id pad resps data).1.length =
        chunkCount data.length) ∧
    (∀ j, j < chunkCount data.length → (∀ i, i < j → chunkRespOk (resps i)) →
      ¬ chunkRespOk (resps j) →
      (verify_firmware chip_uid chip_id pad resps data).1.length = j + 1 ∧
      (verify_firmware chip_uid chip_id pad resps data).2 =
        .error (if (resps j).status ≠ 0 then IspError.verifyFailed (56 * j)
                else IspError.verifyMismatch (56 * j))) := by
  constructor
  · intro hall
    obtain ⟨t, ht, htlen⟩ := verifyGo_ok_trace chip_uid chip_id pad resps
      data.length data le_rfl 0 0 (by intro i hi; simpa using hall i hi)
    unfold verify_firmware
    rw [ht]
    exact ⟨rfl, htlen⟩
  · intro j hj hprev hbad
    obtain ⟨t, ht, htlen⟩ := verifyGo_fail_trace chip_uid chip_id pad resps j
      data 0 0 (by omega) hj (by intro i hi; simpa using hprev i hi)
      (by simpa using hbad)
    unfold verify_firmware
    rw [ht]
    refine ⟨htlen, ?_⟩
    simp

/-- Witness for `verify_firmware_spec`: on a 60-byte image (2 chunks), when
the first chunk response is good and the second reports a non-zero first
payload byte, verification stops after 2 commands with a mismatch at byte
address 56. -/
theorem verify_firmware_spec_witness :
    (verify_firmware [] 0 (fun _ => 0)
      (fun i => if i = 0 then ⟨CommandType.Verify, 0, [0]⟩
                else ⟨CommandType.Verify, 0, [1]⟩)
      (List.replicate 60 7)).1.length = 2 ∧
    (verify_firmware [] 0 (fun _ => 0)
      (fun i => if i = 0 then ⟨CommandType.Verify, 0, [0]⟩
                else ⟨CommandType.Verify, 0, [1]⟩)
      (List.replicate 60 7)).2 =
      .error (IspError.verifyMismatch 56) := by
  have h := (verify_firmware_spec [] 0 (fun _ => 0)
    (fun i => if i = 0 then ⟨CommandType.Verify, 0, [0]⟩
              else ⟨CommandType.Verify, 0, [1]⟩)
    (List.replicate 60 7) (by norm_num)).2 1 (by norm_num [chunkCount])
    (by
      intro i hi
      have hi0 : i = 0 := by omega
      subst hi0
      exact ⟨rfl, Or.inr rfl⟩)
    (by
      intro hc
      rcases hc.2 with h | h <;> simp at h)
  obtain ⟨h1, h2⟩ := h
  refine ⟨by simpa using h1, ?_⟩
  rw [h2]
  simp

end Wchisp
